import Mathlib

/-!
Shallow embedding of the routing core of the ai-routing-animation repository:
RoadNetwork (src/data/RoadNetwork.ts), MapMatcher, PriorityQueue and
AStarRouter (src/routing/*). JavaScript floating-point numbers are idealized
as rationals (scores that can be Infinity as `WithTop Rat`), and the
transcendental haversine distance is abstracted as an explicit function
parameter `hav`, since every verified property is independent of the actual
distance values. JS `Map`s are modeled as insertion-ordered association
lists, matching JS iteration order.
-/

namespace RoutingCore

/-- Model of the LatLng interface from core/types.ts (lat/lng as rationals). -/
structure LatLng where
  lat : ℚ
  lng : ℚ
deriving DecidableEq

/-- Model of the RoutingMode union type from core/types.ts. -/
inductive RoutingMode where
  | car
  | bicycle
  | pedestrian
deriving DecidableEq

/-- Model of the OSMNode interface from core/types.ts. -/
structure OSMNode where
  id : String
  lat : ℚ
  lon : ℚ
deriving DecidableEq

/-- Model of the OSMWay interface from core/types.ts; the JS `Map<string,string>`
of tags becomes an insertion-ordered association list. -/
structure OSMWay where
  id : String
  nodeIds : List String
  tags : List (String × String)
deriving DecidableEq

/-- Model of the Edge interface from core/types.ts. -/
structure Edge where
  targetNodeId : String
  cost : ℚ
  wayId : String
  isOneway : Bool
  validModes : List RoutingMode
deriving DecidableEq

/-- Model of the ParsedOSM interface from core/types.ts. -/
structure ParsedOSM where
  nodes : List (String × OSMNode)
  ways : List OSMWay

/-- Model of `Map.get`: first entry with the given key (JS map keys are unique). -/
def alookup {α : Type} (k : String) : List (String × α) → Option α
  | [] => none
  | (k', v) :: rest => if k' = k then some v else alookup k rest

/-- Convenience: `alookup` with the empty-list default, modeling
`this.adjacencyList.get(nodeId) || []`. -/
def alookupD (k : String) (l : List (String × List Edge)) : List Edge :=
  (alookup k l).getD []

/-- Model of `Map.set`: replace the first binding in place, else append
(JS `Map` preserves insertion order and replaces values in place). -/
def aset {α : Type} (k : String) (v : α) : List (String × α) → List (String × α)
  | [] => [(k, v)]
  | (k', v') :: rest => if k' = k then (k, v) :: rest else (k', v') :: aset k v rest

/- String literals used by the source, as named constants. -/

def highwayKey : String := "highway"
def onewayKey : String := "oneway"
def yesStr : String := "yes"
def oneStr : String := "1"
def trueStr : String := "true"
def underscoreStr : String := "_"
def dotStr : String := "."
def minusStr : String := "-"
def zeroChar : Char := '0'

def motorwayStr : String := "motorway"
def trunkStr : String := "trunk"
def primaryStr : String := "primary"
def secondaryStr : String := "secondary"
def tertiaryStr : String := "tertiary"
def unclassifiedStr : String := "unclassified"
def residentialStr : String := "residential"
def motorwayLinkStr : String := "motorway_link"
def trunkLinkStr : String := "trunk_link"
def primaryLinkStr : String := "primary_link"
def secondaryLinkStr : String := "secondary_link"
def tertiaryLinkStr : String := "tertiary_link"
def livingStreetStr : String := "living_street"
def serviceStr : String := "service"
def cyclewayStr : String := "cycleway"
def pathStr : String := "path"
def footwayStr : String := "footway"
def trackStr : String := "track"
def stepsStr : String := "steps"
def pedestrianStr : String := "pedestrian"

/-- Car-accessible highway classifications (RoadNetwork.getValidModes, lines 104-107). -/
def carRoads : List String :=
  [motorwayStr, trunkStr, primaryStr, secondaryStr, tertiaryStr,
   unclassifiedStr, residentialStr, motorwayLinkStr, trunkLinkStr,
   primaryLinkStr, secondaryLinkStr, tertiaryLinkStr, livingStreetStr,
   serviceStr]

/-- Bicycle-accessible highway classifications (RoadNetwork.getValidModes, lines 113-115). -/
def bikeRoads : List String :=
  [trunkStr, primaryStr, secondaryStr, tertiaryStr, unclassifiedStr,
   residentialStr, livingStreetStr, serviceStr, cyclewayStr, pathStr,
   footwayStr, trackStr]

/-- Pedestrian-accessible highway classifications (RoadNetwork.getValidModes, lines 121-123). -/
def pedestrianRoads : List String :=
  [primaryStr, secondaryStr, tertiaryStr, unclassifiedStr,
   residentialStr, livingStreetStr, serviceStr, footwayStr,
   pathStr, stepsStr, pedestrianStr]

/-- Model of RoadNetwork.getValidModes: membership in the three fixed lists,
pushed in the order car, bicycle, pedestrian; ways without a highway tag get
no modes. -/
def getValidModes (tags : List (String × String)) : List RoutingMode :=
  match alookup highwayKey tags with
  | none => []
  | some highway =>
    (if highway ∈ carRoads then [RoutingMode.car] else []) ++
    (if highway ∈ bikeRoads then [RoutingMode.bicycle] else []) ++
    (if highway ∈ pedestrianRoads then [RoutingMode.pedestrian] else [])

/-- Model of RoadNetwork.isOneway (lines 92-95). -/
def isOneway (tags : List (String × String)) : Bool :=
  decide (alookup onewayKey tags = some yesStr ∨
          alookup onewayKey tags = some oneStr ∨
          alookup onewayKey tags = some trueStr)

/-- Speed table of RoadNetwork.getSpeedLimit (lines 136-156), km/h. -/
def speedTable : List (String × ℚ) :=
  [(motorwayStr, 120), (trunkStr, 100), (primaryStr, 80), (secondaryStr, 70),
   (tertiaryStr, 60), (unclassifiedStr, 50), (residentialStr, 40),
   (livingStreetStr, 10), (serviceStr, 20), (motorwayLinkStr, 60),
   (trunkLinkStr, 50), (primaryLinkStr, 50), (secondaryLinkStr, 40),
   (tertiaryLinkStr, 40), (cyclewayStr, 20), (footwayStr, 5), (pathStr, 5),
   (stepsStr, 3), (pedestrianStr, 5)]

/-- Model of RoadNetwork.getSpeedLimit; `speedMap[highway] || 40` is a plain
default lookup since every table value is nonzero (hence truthy). -/
def getSpeedLimit (tags : List (String × String)) : ℚ :=
  match alookup highwayKey tags with
  | none => 40
  | some highway => (alookup highway speedTable).getD 40

/-- Model of the RoadNetwork class state: node table and adjacency mapping. -/
structure RoadNetwork where
  nodes : List (String × OSMNode)
  adjacencyList : List (String × List Edge)

/-- Model of RoadNetwork.addEdge (lines 85-90): append the edge to the source
node's list, creating the entry if absent. -/
def addEdge : List (String × List Edge) → String → Edge → List (String × List Edge)
  | [], fromId, e => [(fromId, [e])]
  | (k, es) :: rest, fromId, e =>
    if k = fromId then (k, es ++ [e]) :: rest
    else (k, es) :: addEdge rest fromId e

/-- Consecutive node pairs of a way, i.e. the pairs visited by the index loop
`for i in 0 .. way.nodeIds.length - 2` of buildFromOSM. -/
def wayPairs (w : OSMWay) : List (String × String) :=
  w.nodeIds.zip w.nodeIds.tail

/-- Edges contributed by one consecutive node pair of a way in
RoadNetwork.buildFromOSM (lines 22-57): skip if either endpoint misses from
the node table; otherwise a forward edge, plus a backward edge with the same
cost/modes when the way is not oneway. `hav` abstracts the private
haversineDistance method. -/
def pairEdges (hav : LatLng → LatLng → ℚ) (nodes : List (String × OSMNode))
    (w : OSMWay) (fromId toId : String) : List (String × Edge) :=
  match alookup fromId nodes, alookup toId nodes with
  | some fromNode, some toNode =>
    let distance := hav ⟨fromNode.lat, fromNode.lon⟩ ⟨toNode.lat, toNode.lon⟩
    let cost := distance / 1000 / getSpeedLimit w.tags * 60
    let ow := isOneway w.tags
    let validModes := getValidModes w.tags
    (fromId, ⟨toId, cost, w.id, ow, validModes⟩) ::
      (if ow then []
       else [(toId, ⟨fromId, cost, w.id, false, validModes⟩)])
  | _, _ => []

/-- Flat list of (source node, edge) additions performed by buildFromOSM, in
program order: outer loop over ways, inner loop over consecutive pairs. -/
def buildEdgesList (hav : LatLng → LatLng → ℚ) (nodes : List (String × OSMNode))
    (ways : List OSMWay) : List (String × Edge) :=
  (ways.map (fun w => ((wayPairs w).map
    (fun p => pairEdges hav nodes w p.1 p.2)).flatten)).flatten

/-- Model of RoadNetwork.buildFromOSM (lines 12-59). -/
def buildFromOSM (hav : LatLng → LatLng → ℚ) (parsed : ParsedOSM) : RoadNetwork :=
  { nodes := parsed.nodes
    adjacencyList :=
      (buildEdgesList hav parsed.nodes parsed.ways).foldl
        (fun adj p => addEdge adj p.1 p.2) [] }

/-- Model of RoadNetwork.getNode. -/
def RoadNetwork.getNode (net : RoadNetwork) (nodeId : String) : Option OSMNode :=
  alookup nodeId net.nodes

/-- Model of RoadNetwork.getNeighbors (lines 65-75); the source's `if` has two
identical branches (both filter by validModes), collapsed here. -/
def RoadNetwork.getNeighbors (net : RoadNetwork) (nodeId : String)
    (mode : RoutingMode) : List Edge :=
  (alookupD nodeId net.adjacencyList).filter (fun e => mode ∈ e.validModes)

/-- Model of the SnappedPoint interface from core/types.ts. -/
structure SnappedPoint where
  location : LatLng
  nodeIds : String × String
  interpolation : ℚ
deriving DecidableEq

/-- Result record of MapMatcher.pointToSegmentDistance. -/
structure ProjResult where
  distance : ℚ
  closestPoint : LatLng
  t : ℚ
deriving DecidableEq

/-- Model of MapMatcher.pointToSegmentDistance (lines 301-333): planar
projection in (lng, lat) space with the parameter clamped to the segment,
distance measured by the abstracted haversine `hav`. The degenerate branch
(`dx === 0 && dy === 0`) avoids the division entirely. -/
def pointToSegmentDistance (hav : LatLng → LatLng → ℚ)
    (point segmentStart segmentEnd : LatLng) : ProjResult :=
  let dx := segmentEnd.lng - segmentStart.lng
  let dy := segmentEnd.lat - segmentStart.lat
  if dx = 0 ∧ dy = 0 then
    ⟨hav point segmentStart, segmentStart, 0⟩
  else
    let t0 := ((point.lng - segmentStart.lng) * dx
               + (point.lat - segmentStart.lat) * dy) / (dx * dx + dy * dy)
    let t := max 0 (min 1 t0)
    let closestPoint : LatLng := ⟨segmentStart.lat + t * dy, segmentStart.lng + t * dx⟩
    ⟨hav point closestPoint, closestPoint, t⟩

/-- Candidate segments enumerated by the nested loops of MapMatcher.snapToRoad
(lines 271-296) in visit order, with each loop's skip conditions applied:
missing source node, edge invalid for the mode, missing target node. Each
entry is (fromId, targetNodeId, from coordinates, to coordinates). -/
def snapCandidates (net : RoadNetwork) (mode : RoutingMode) :
    List (String × String × LatLng × LatLng) :=
  net.adjacencyList.foldr (fun entry acc =>
    match alookup entry.1 net.nodes with
    | none => acc
    | some fromNode =>
      entry.2.foldr (fun e acc2 =>
        if mode ∈ e.validModes then
          match alookup e.targetNodeId net.nodes with
          | none => acc2
          | some toNode =>
            (entry.1, e.targetNodeId, ⟨fromNode.lat, fromNode.lon⟩,
              ⟨toNode.lat, toNode.lon⟩) :: acc2
        else acc2) acc) []

/-- One comparison step of the snapToRoad scan: update (bestMatch, minDistance)
when the candidate's distance is strictly below the current minimum
(`result.distance < minDistance`, line 287). -/
def snapStep (hav : LatLng → LatLng → ℚ) (point : LatLng)
    (st : Option SnappedPoint × ℚ) (cand : String × String × LatLng × LatLng) :
    Option SnappedPoint × ℚ :=
  let result := pointToSegmentDistance hav point cand.2.2.1 cand.2.2.2
  if result.distance < st.2 then
    (some ⟨result.closestPoint, (cand.1, cand.2.1), result.t⟩, result.distance)
  else st

/-- Model of MapMatcher.snapToRoad (lines 263-299): scan every stored edge in
order, keeping the closest mode-valid segment strictly within the running
minimum, which starts at maxRadius (source default 100). -/
def snapToRoad (hav : LatLng → LatLng → ℚ) (net : RoadNetwork) (point : LatLng)
    (mode : RoutingMode) (maxRadius : ℚ) : Option SnappedPoint :=
  ((snapCandidates net mode).foldl (snapStep hav point) (none, maxRadius)).1

/- PriorityQueue (src/routing/PriorityQueue.ts): binary min-heap over an array,
modeled as a list with index arithmetic. The bubble helpers take an explicit
step budget that always dominates the number of moves (an index can move at
most `length` times toward the root or the leaves), so the budget branch is
never the one that ends a run. -/

/-- Heap entry of the PriorityQueue (PQItem interface); items are node-id
strings, priorities are scores that can be Infinity. -/
structure PQItem where
  item : String
  priority : WithTop ℚ
deriving DecidableEq

/-- Default heap entry for out-of-bounds reads (never hit on the in-bounds
indices used by the source's array accesses). -/
def pqDefault : PQItem := ⟨underscoreStr, 0⟩

/-- Swap of two in-bounds heap slots (the array destructuring swap of the
source); out-of-bounds indices leave the list unchanged. -/
def listSwap (l : List PQItem) (i j : Nat) : List PQItem :=
  if i < l.length ∧ j < l.length then
    (l.set i (l.getD j pqDefault)).set j (l.getD i pqDefault)
  else l

/-- Model of PriorityQueue.bubbleUp (lines 386-394): move the entry at `index`
toward the root while smaller than its parent. -/
def bubbleUpAux : Nat → List PQItem → Nat → List PQItem
  | 0, l, _ => l
  | fuel + 1, l, index =>
    if index = 0 then l
    else
      let parentIndex := (index - 1) / 2
      if (l.getD parentIndex pqDefault).priority ≤ (l.getD index pqDefault).priority then l
      else bubbleUpAux fuel (listSwap l index parentIndex) parentIndex

/-- Model of PriorityQueue.bubbleDown (lines 396-417): move the entry at
`index` toward the leaves while a child is smaller. -/
def bubbleDownAux : Nat → List PQItem → Nat → List PQItem
  | 0, l, _ => l
  | fuel + 1, l, index =>
    let leftChild := 2 * index + 1
    let rightChild := 2 * index + 2
    let m1 := if leftChild < l.length ∧
        (l.getD leftChild pqDefault).priority < (l.getD index pqDefault).priority
      then leftChild else index
    let minIndex := if rightChild < l.length ∧
        (l.getD rightChild pqDefault).priority < (l.getD m1 pqDefault).priority
      then rightChild else m1
    if minIndex = index then l
    else bubbleDownAux fuel (listSwap l index minIndex) minIndex

/-- Model of PriorityQueue.push (lines 362-365). -/
def pqPush (l : List PQItem) (item : String) (priority : WithTop ℚ) : List PQItem :=
  let l2 := l ++ [⟨item, priority⟩]
  bubbleUpAux l2.length l2 (l2.length - 1)

/-- Model of PriorityQueue.pop (lines 367-376): returns the minimum-priority
item and the remaining heap, or none when empty. -/
def pqPop (l : List PQItem) : Option (String × List PQItem) :=
  match l with
  | [] => none
  | [x] => some (x.item, [])
  | x :: y :: rest =>
    let full := x :: y :: rest
    let lastItem := full.getLastD pqDefault
    let l2 := (full.dropLast).set 0 lastItem
    some (x.item, bubbleDownAux l2.length l2 0)

/- AStarRouter (src/routing/AStarRouter.ts). -/

/-- Left-pad the decimal rendering of a natural number to four digits. -/
def pad4 (n : Nat) : String :=
  let s := toString n
  String.mk (List.replicate (4 - s.length) zeroChar) ++ s

/-- Four-decimal fixed rendering of a nonnegative rational, as
`Number.prototype.toFixed(4)`: the integer rendered is the value scaled by
10000 and rounded to the nearest integer, ties toward the larger integer,
that is `⌊q * 10000 + 1/2⌋`, computed here by integer floor division
`(20000 * num + den).fdiv (2 * den)` so that it evaluates by kernel
reduction. -/
def toFixed4Nonneg (q : ℚ) : String :=
  let n : ℕ := ((20000 * q.num + (q.den : ℤ)).fdiv (2 * (q.den : ℤ))).toNat
  toString (n / 10000) ++ dotStr ++ pad4 (n % 10000)

/-- Model of `interpolation.toFixed(4)`: ECMA toFixed prepends the sign and
formats the absolute value. -/
def toFixed4 (q : ℚ) : String :=
  if q < 0 then minusStr ++ toFixed4Nonneg (-q) else toFixed4Nonneg q

/-- Model of AStarRouter.getVirtualNodeId (lines 341-344): the template string
built from the two segment endpoint ids and the 4-decimal interpolation. -/
def getVirtualNodeId (point : SnappedPoint) : String :=
  point.nodeIds.1 ++ underscoreStr ++ point.nodeIds.2 ++ underscoreStr ++
    toFixed4 point.interpolation

/-- JS multiplication of a finite factor with a possibly-infinite cost
(`interpolation * fullCost`). When the cost is Infinity the product is kept
infinite; JS would produce NaN for a zero factor times Infinity, a corner this
rational idealization maps to Infinity as well. -/
def jsMul (q : ℚ) : WithTop ℚ → WithTop ℚ
  | none => ⊤
  | some x => ((q * x : ℚ) : WithTop ℚ)

/-- Model of `gScore.get(current) || Infinity` (line 314): a missing entry or
a falsy stored 0 both yield Infinity. -/
def jsOrInf (o : Option (WithTop ℚ)) : WithTop ℚ :=
  match o with
  | none => ⊤
  | some v => if v = 0 then ⊤ else v

/-- Model of AStarRouter.heuristic (lines 421-425): assumed speed per mode,
time in minutes over the abstracted haversine distance. -/
def heuristic (hav : LatLng → LatLng → ℚ) (mode : RoutingMode)
    (a b : LatLng) : ℚ :=
  let distance := hav a b
  let speed : ℚ := match mode with
    | RoutingMode.car => 50
    | RoutingMode.bicycle => 20
    | RoutingMode.pedestrian => 5
  distance / 1000 / speed * 60

/-- Model of the RouteStep union from core/types.ts, including the
`path-update` variant that a correct search never emits. -/
inductive RouteStep where
  | explore (nodeId : String) (gScore fScore : WithTop ℚ)
  | pathUpdate (path : List String)
  | complete (path : List String) (totalCost : WithTop ℚ)
deriving DecidableEq

/-- True exactly on the Explore variant. -/
def RouteStep.isExplore : RouteStep → Bool
  | RouteStep.explore _ _ _ => true
  | _ => false

/-- True exactly on the path-update variant. -/
def RouteStep.isPathUpdate : RouteStep → Bool
  | RouteStep.pathUpdate _ => true
  | _ => false

/-- True exactly on the Complete variant. -/
def RouteStep.isComplete : RouteStep → Bool
  | RouteStep.complete _ _ => true
  | _ => false

/-- Model of AStarRouter.getEdgeCostBetweenNodes (lines 396-406): first
matching mode-valid edge fromId→toId, else the reverse direction, else
Infinity. -/
def getEdgeCostBetweenNodes (net : RoadNetwork) (mode : RoutingMode)
    (fromId toId : String) : WithTop ℚ :=
  match (net.getNeighbors fromId mode).find? (fun e => decide (e.targetNodeId = toId)) with
  | some edge => (edge.cost : WithTop ℚ)
  | none =>
    match (net.getNeighbors toId mode).find? (fun e => decide (e.targetNodeId = fromId)) with
    | some reverseEdge => (reverseEdge.cost : WithTop ℚ)
    | none => ⊤

/-- Model of AStarRouter.getNeighborsForNode (lines 346-394): the virtual
origin id reaches its two segment endpoints at partial cost, the virtual
destination id is a sink, and a real node takes its graph neighbors, with
edges between the destination's two endpoints redirected to the virtual
destination id at a direction-scaled fraction of the edge cost. -/
def getNeighborsForNode (net : RoadNetwork) (origin destination : SnappedPoint)
    (mode : RoutingMode) (nodeId : String) : List (String × WithTop ℚ) :=
  if nodeId = getVirtualNodeId origin then
    let n1 := origin.nodeIds.1
    let n2 := origin.nodeIds.2
    let fullCost := getEdgeCostBetweenNodes net mode n1 n2
    [(n1, jsMul origin.interpolation fullCost),
     (n2, jsMul (1 - origin.interpolation) fullCost)]
  else if nodeId = getVirtualNodeId destination then []
  else
    (net.getNeighbors nodeId mode).map (fun edge =>
      if (nodeId = destination.nodeIds.1 ∨ nodeId = destination.nodeIds.2) ∧
         (edge.targetNodeId = destination.nodeIds.1 ∨
          edge.targetNodeId = destination.nodeIds.2) then
        let fraction : ℚ :=
          if nodeId = destination.nodeIds.1 ∧
             edge.targetNodeId = destination.nodeIds.2 then
            destination.interpolation
          else if nodeId = destination.nodeIds.2 ∧
              edge.targetNodeId = destination.nodeIds.1 then
            1 - destination.interpolation
          else 1 / 2
        (getVirtualNodeId destination, ((edge.cost * fraction : ℚ) : WithTop ℚ))
      else (edge.targetNodeId, (edge.cost : WithTop ℚ)))

/-- Model of AStarRouter.getNodeLocation (lines 408-419). -/
def getNodeLocation (net : RoadNetwork) (origin destination : SnappedPoint)
    (nodeId : String) : LatLng :=
  if nodeId = getVirtualNodeId origin then origin.location
  else if nodeId = getVirtualNodeId destination then destination.location
  else match net.getNode nodeId with
    | some node => ⟨node.lat, node.lon⟩
    | none => origin.location

/-- Model of AStarRouter.reconstructPath (lines 442-449): follow cameFrom
pointers, building the path front-to-back. The step budget (always called
with more steps than the map has entries) stands in for the source's
unbounded while loop, whose chains in actual searches are acyclic and
shorter than the map. -/
def reconstructPath (cameFrom : List (String × String)) : Nat → String → List String
  | 0, current => [current]
  | fuel + 1, current =>
    match alookup current cameFrom with
    | none => [current]
    | some prev => reconstructPath cameFrom fuel prev ++ [current]

/-- Local search state of one findRoute invocation (lines 267-272). -/
structure AState where
  openSet : List PQItem
  cameFrom : List (String × String)
  gScore : List (String × WithTop ℚ)
  fScore : List (String × WithTop ℚ)
  closedSet : List String

/-- Fixed inputs of one findRoute invocation. -/
structure Ctx where
  hav : LatLng → LatLng → ℚ
  net : RoadNetwork
  origin : SnappedPoint
  destination : SnappedPoint
  mode : RoutingMode

/-- Virtual origin id of the search (line 264). -/
def Ctx.startId (c : Ctx) : String := getVirtualNodeId c.origin

/-- Virtual destination id of the search (line 265). -/
def Ctx.goalId (c : Ctx) : String := getVirtualNodeId c.destination

/-- Relaxation of one neighbor (lines 311-329): skip closed neighbors; when
the tentative gScore beats the stored one (or none is stored), update
cameFrom/gScore/fScore and push a fresh queue entry with the new fScore. -/
def relax (c : Ctx) (current : String) (st : AState)
    (nc : String × WithTop ℚ) : AState :=
  if nc.1 ∈ st.closedSet then st
  else
    let tentativeGScore := jsOrInf (alookup current st.gScore) + nc.2
    let better := match alookup nc.1 st.gScore with
      | none => true
      | some g => decide (tentativeGScore < g)
    if better then
      let h := heuristic c.hav c.mode
        (getNodeLocation c.net c.origin c.destination nc.1) c.destination.location
      let f := tentativeGScore + (h : WithTop ℚ)
      { st with
        cameFrom := aset nc.1 current st.cameFrom
        gScore := aset nc.1 tentativeGScore st.gScore
        fScore := aset nc.1 f st.fScore
        openSet := pqPush st.openSet nc.1 f }
    else st

/-- Expansion of a freshly popped, unvisited, non-goal node (lines 306-330):
add it to the closed set, then relax every neighbor in order. -/
def expandState (c : Ctx) (current : String) (rest : List PQItem) (st : AState) : AState :=
  let st1 := { st with openSet := rest, closedSet := st.closedSet ++ [current] }
  (getNeighborsForNode c.net c.origin c.destination c.mode current).foldl
    (relax c current) st1

/-- Main loop of AStarRouter.findRoute (lines 281-338), with the emitted steps
collected into a list. The step budget models the `while (!openSet.isEmpty())`
loop; `loopSome` below proves the budget chosen by `findRoute` is never
exhausted, so the search always terminates on its own. A `none` result models
a thrown exception from `gScore.get(current)!` at the goal (also proved
unreachable). -/
def loop (c : Ctx) : Nat → AState → Option (List RouteStep)
  | 0, _ => none
  | fuel + 1, st =>
    match pqPop st.openSet with
    | none => some [RouteStep.complete [] ⊤]
    | some (current, rest) =>
      if current ∈ st.closedSet then
        loop c fuel { st with openSet := rest }
      else
        let ex := RouteStep.explore current ((alookup current st.gScore).getD 0)
          ((alookup current st.fScore).getD 0)
        if current = c.goalId then
          match alookup current st.gScore with
          | none => none
          | some g =>
            some [ex, RouteStep.complete
              (reconstructPath st.cameFrom (st.cameFrom.length + 1) current) g]
        else
          match loop c fuel (expandState c current rest st) with
          | none => none
          | some steps => some (ex :: steps)

/-- Every node id that can ever enter the open set: the two virtual ids, the
origin segment's endpoints, and every edge target of the adjacency mapping. -/
def idUniverse (c : Ctx) : List String :=
  c.startId :: c.goalId :: c.origin.nodeIds.1 :: c.origin.nodeIds.2 ::
    (c.net.adjacencyList.map (fun p => p.2.map Edge.targetNodeId)).flatten

/-- Upper bound on the number of neighbors any single node can have. -/
def maxNbrs (c : Ctx) : Nat :=
  2 + (c.net.adjacencyList.map (fun p => p.2.length)).sum

/-- Step budget that `loopSome` proves sufficient for any search. -/
def initialFuel (c : Ctx) : Nat :=
  2 + (idUniverse c).toFinset.card * (maxNbrs c + 1)

/-- Initial search state (lines 267-277): gScore of the virtual origin id is
0, its fScore the heuristic from origin to destination, and the open set holds
one entry for it at that fScore (the source pushes `fScore.get(startId)!`,
which is the value just stored). -/
def initState (c : Ctx) : AState :=
  { openSet := pqPush [] c.startId
      ((heuristic c.hav c.mode c.origin.location c.destination.location : ℚ) : WithTop ℚ)
    cameFrom := []
    gScore := aset c.startId (0 : WithTop ℚ) []
    fScore := aset c.startId
      ((heuristic c.hav c.mode c.origin.location c.destination.location : ℚ) : WithTop ℚ) []
    closedSet := [] }

/-- Model of AStarRouter.findRoute (lines 259-339): initialize the open set
with the virtual origin id at heuristic priority and run the main loop. -/
def findRoute (hav : LatLng → LatLng → ℚ) (net : RoadNetwork)
    (origin destination : SnappedPoint) (mode : RoutingMode) :
    Option (List RouteStep) :=
  loop ⟨hav, net, origin, destination, mode⟩
    (initialFuel ⟨hav, net, origin, destination, mode⟩)
    (initState ⟨hav, net, origin, destination, mode⟩)

/-- Node ids of the Explore steps of a step sequence, in emission order. -/
def exploreIds (steps : List RouteStep) : List String :=
  steps.filterMap (fun s => match s with
    | RouteStep.explore n _ _ => some n
    | _ => none)

/- Lemmas about adjacency construction. -/

theorem alookupD_addEdge_self (adj : List (String × List Edge)) (k : String) (e : Edge) :
    alookupD k (addEdge adj k e) = alookupD k adj ++ [e] := by
  induction adj with
  | nil => simp [addEdge, alookupD, alookup]
  | cons p rest ih =>
    obtain ⟨k', es⟩ := p
    by_cases h : k' = k
    · subst h
      simp [addEdge, alookupD, alookup]
    · simp only [addEdge, if_neg h, alookupD, alookup]
      simpa [alookupD] using ih

theorem alookup_addEdge_ne (adj : List (String × List Edge)) (k k' : String) (e : Edge)
    (h : k' ≠ k) : alookup k' (addEdge adj k e) = alookup k' adj := by
  induction adj with
  | nil =>
    simp only [addEdge, alookup]
    rw [if_neg (fun hk => h hk.symm)]
  | cons p rest ih =>
    obtain ⟨k0, es⟩ := p
    by_cases h0 : k0 = k
    · subst h0
      simp only [addEdge, if_pos rfl, alookup]
      rw [if_neg (fun hk => h hk.symm), if_neg (fun hk => h hk.symm)]
    · simp only [addEdge, if_neg h0, alookup]
      by_cases h1 : k0 = k'
      · rw [if_pos h1, if_pos h1]
      · rw [if_neg h1, if_neg h1]
        exact ih

theorem mem_alookupD_addEdge (adj : List (String × List Edge)) (k k' : String)
    (e e' : Edge) (h : e ∈ alookupD k adj) : e ∈ alookupD k (addEdge adj k' e') := by
  by_cases hk : k = k'
  · subst hk
    rw [alookupD_addEdge_self]
    exact List.mem_append_left _ h
  · rwa [alookupD, alookup_addEdge_ne adj k' k e' hk]

theorem mem_foldl_addEdge (l : List (String × Edge)) (adj : List (String × List Edge))
    (k : String) (e : Edge)
    (h : e ∈ alookupD k adj ∨ (k, e) ∈ l) :
    e ∈ alookupD k (l.foldl (fun a p => addEdge a p.1 p.2) adj) := by
  induction l generalizing adj with
  | nil => simpa using h.resolve_right (by simp)
  | cons p ps ih =>
    simp only [List.foldl_cons]
    apply ih
    rcases h with h | h
    · exact Or.inl (mem_alookupD_addEdge adj k p.1 e p.2 h)
    · rcases List.mem_cons.mp h with h | h
      · left
        obtain ⟨h1, h2⟩ := Prod.mk.injEq .. ▸ congrArg id h
        subst h1
        subst h2
        rw [alookupD_addEdge_self]
        exact List.mem_append_right _ (List.mem_singleton.mpr rfl)
      · exact Or.inr h

theorem mem_buildEdgesList (hav : LatLng → LatLng → ℚ) (nodes : List (String × OSMNode))
    (ways : List OSMWay) (w : OSMWay) (pr : String × String) (p : String × Edge)
    (hw : w ∈ ways) (hpr : pr ∈ wayPairs w)
    (hp : p ∈ pairEdges hav nodes w pr.1 pr.2) :
    p ∈ buildEdgesList hav nodes ways := by
  unfold buildEdgesList
  rw [List.mem_flatten]
  refine ⟨((wayPairs w).map (fun q => pairEdges hav nodes w q.1 q.2)).flatten,
    List.mem_map.mpr ⟨w, hw, rfl⟩, ?_⟩
  rw [List.mem_flatten]
  exact ⟨pairEdges hav nodes w pr.1 pr.2, List.mem_map.mpr ⟨pr, hpr, rfl⟩, hp⟩

theorem mem_build_adjacency (hav : LatLng → LatLng → ℚ) (parsed : ParsedOSM)
    (w : OSMWay) (pr : String × String) (k : String) (e : Edge)
    (hw : w ∈ parsed.ways) (hpr : pr ∈ wayPairs w)
    (hp : (k, e) ∈ pairEdges hav parsed.nodes w pr.1 pr.2) :
    e ∈ alookupD k (buildFromOSM hav parsed).adjacencyList := by
  apply mem_foldl_addEdge
  exact Or.inr (mem_buildEdgesList hav parsed.nodes parsed.ways w pr (k, e) hw hpr hp)

/-- C5: for every consecutive node pair of a way whose endpoints exist in the
node table, graph construction stores a forward edge, and stores a backward
edge exactly when the way is not tagged one-way (`oneway ∈ {yes, 1, true}`);
the backward edge carries the identical cost and identical allowed modes.
The first conjunct characterizes precisely which edges the pair contributes,
the next two place them in the built adjacency mapping. -/
theorem edge_pair_construction (hav : LatLng → LatLng → ℚ) (parsed : ParsedOSM)
    (w : OSMWay) (fromId toId : String) (fn tn : OSMNode)
    (hw : w ∈ parsed.ways) (hpr : (fromId, toId) ∈ wayPairs w)
    (hfrom : alookup fromId parsed.nodes = some fn)
    (hto : alookup toId parsed.nodes = some tn) :
    ∃ cst : ℚ,
      pairEdges hav parsed.nodes w fromId toId =
        (fromId, ⟨toId, cst, w.id, isOneway w.tags, getValidModes w.tags⟩) ::
          (if isOneway w.tags then []
           else [(toId, ⟨fromId, cst, w.id, false, getValidModes w.tags⟩)]) ∧
      (⟨toId, cst, w.id, isOneway w.tags, getValidModes w.tags⟩ : Edge) ∈
        alookupD fromId (buildFromOSM hav parsed).adjacencyList ∧
      (isOneway w.tags = false →
        (⟨fromId, cst, w.id, false, getValidModes w.tags⟩ : Edge) ∈
          alookupD toId (buildFromOSM hav parsed).adjacencyList) ∧
      (isOneway w.tags = true ↔
        (alookup onewayKey w.tags = some yesStr ∨
         alookup onewayKey w.tags = some oneStr ∨
         alookup onewayKey w.tags = some trueStr)) := by
  have heq : pairEdges hav parsed.nodes w fromId toId =
      (fromId, ⟨toId,
        hav ⟨fn.lat, fn.lon⟩ ⟨tn.lat, tn.lon⟩ / 1000 / getSpeedLimit w.tags * 60,
        w.id, isOneway w.tags, getValidModes w.tags⟩) ::
        (if isOneway w.tags then []
         else [(toId, ⟨fromId,
           hav ⟨fn.lat, fn.lon⟩ ⟨tn.lat, tn.lon⟩ / 1000 / getSpeedLimit w.tags * 60,
           w.id, false, getValidModes w.tags⟩)]) := by
    simp only [pairEdges, hfrom, hto]
  refine ⟨hav ⟨fn.lat, fn.lon⟩ ⟨tn.lat, tn.lon⟩ / 1000 / getSpeedLimit w.tags * 60,
    heq, ?_, ?_, ?_⟩
  · apply mem_build_adjacency hav parsed w (fromId, toId) fromId _ hw hpr
    rw [heq]
    exact List.mem_cons_self _ _
  · intro how
    apply mem_build_adjacency hav parsed w (fromId, toId) toId _ hw hpr
    rw [heq, how]
    simp
  · unfold isOneway
    exact decide_eq_true_iff

/-- C2 (amended): a way whose highway classification is in none of the three
mode lists receives an empty validModes list on every edge it contributes,
and every per-mode neighbor query filters on validModes membership, so no
query ever returns such an edge (the edges are nevertheless stored, see the
counterexample). -/
theorem unrecognized_way_edges_unroutable (hav : LatLng → LatLng → ℚ)
    (nodes : List (String × OSMNode)) (w : OSMWay)
    (hmodes : getValidModes w.tags = []) :
    (∀ a b p, p ∈ pairEdges hav nodes w a b → p.2.validModes = []) ∧
    (∀ (net : RoadNetwork) nodeId mode e,
      e ∈ net.getNeighbors nodeId mode → mode ∈ e.validModes) := by
  constructor
  · intro a b p hp
    unfold pairEdges at hp
    rcases ha : alookup a nodes with _ | fn <;> rcases hb : alookup b nodes with _ | tn <;>
      rw [ha, hb] at hp <;> simp at hp
    rcases hp with hp | hp
    · rw [hp]
      exact hmodes
    · rcases how : isOneway w.tags with _ | _ <;> rw [how] at hp <;> simp at hp
      rw [hp]
      exact hmodes
  · intro net nodeId mode e he
    have := List.mem_filter.mp he
    exact of_decide_eq_true this.2

/- Concrete inputs shared by counterexamples and witnesses. -/

def havZ : LatLng → LatLng → ℚ := fun _ _ => 0
def sA : String := "a"
def sB : String := "b"
def sW1 : String := "w1"
def bridlewayStr : String := "bridleway"
def nodeA : OSMNode := ⟨sA, 0, 0⟩
def nodeB : OSMNode := ⟨sB, 0, 1⟩
def wayBri : OSMWay := ⟨sW1, [sA, sB], [(highwayKey, bridlewayStr)]⟩
def parsedBri : ParsedOSM := ⟨[(sA, nodeA), (sB, nodeB)], [wayBri]⟩
def netBri : RoadNetwork := buildFromOSM havZ parsedBri

/-- C2 (counterexample): a way tagged `highway=bridleway` matches none of the
three mode lists, yet after building the graph the adjacency mapping does
contain an edge originating from that way, contradicting the claim that no
edge for such a way is stored. -/
theorem unrecognized_way_stores_edges :
    getValidModes wayBri.tags = [] ∧
    ∃ p ∈ netBri.adjacencyList, ∃ e ∈ p.2, e.wayId = wayBri.id := by
  constructor
  · decide
  · refine ⟨(sA, [⟨sB, havZ ⟨nodeA.lat, nodeA.lon⟩ ⟨nodeB.lat, nodeB.lon⟩ / 1000 /
      getSpeedLimit wayBri.tags * 60, sW1, false, []⟩]), ?_, ?_⟩
    · exact List.mem_cons_self _ _
    · exact ⟨_, List.mem_cons_self _ _, rfl⟩

/-- C5 (witness): the construction theorem instantiated on a two-node
residential way. -/
theorem edge_pair_construction_witness :
    ∃ cst : ℚ,
      pairEdges havZ parsedBri.nodes ⟨sW1, [sA, sB], [(highwayKey, residentialStr)]⟩ sA sB =
        (sA, ⟨sB, cst, sW1, false,
          [RoutingMode.car, RoutingMode.bicycle, RoutingMode.pedestrian]⟩) ::
          [(sB, ⟨sA, cst, sW1, false,
            [RoutingMode.car, RoutingMode.bicycle, RoutingMode.pedestrian]⟩)] := by
  have h := edge_pair_construction havZ
    ⟨parsedBri.nodes, [⟨sW1, [sA, sB], [(highwayKey, residentialStr)]⟩]⟩
    ⟨sW1, [sA, sB], [(highwayKey, residentialStr)]⟩ sA sB nodeA nodeB
    (List.mem_singleton.mpr rfl) (by decide) rfl rfl
  obtain ⟨cst, heq, _⟩ := h
  refine ⟨cst, ?_⟩
  rw [heq]
  rfl

/- Lemmas about snapping. -/

theorem projection_t_bounds (hav : LatLng → LatLng → ℚ) (point a b : LatLng) :
    0 ≤ (pointToSegmentDistance hav point a b).t ∧
    (pointToSegmentDistance hav point a b).t ≤ 1 := by
  simp only [pointToSegmentDistance]
  split
  · exact ⟨le_refl 0, zero_le_one⟩
  · refine ⟨le_max_left 0 _, max_le zero_le_one (min_le_left 1 _)⟩

theorem snapFold_some_stays (hav : LatLng → LatLng → ℚ) (point : LatLng)
    (cands : List (String × String × LatLng × LatLng)) (sp : SnappedPoint) (m : ℚ) :
    (cands.foldl (snapStep hav point) (some sp, m)).1 ≠ none := by
  induction cands generalizing sp m with
  | nil => simp
  | cons c cs ih =>
    simp only [List.foldl_cons, snapStep]
    split
    · exact ih _ _
    · exact ih sp m

theorem snapFold_none_iff (hav : LatLng → LatLng → ℚ) (point : LatLng)
    (cands : List (String × String × LatLng × LatLng)) (m : ℚ) :
    (cands.foldl (snapStep hav point) (none, m)).1 = none ↔
    ∀ cand ∈ cands,
      m ≤ (pointToSegmentDistance hav point cand.2.2.1 cand.2.2.2).distance := by
  induction cands generalizing m with
  | nil => simp
  | cons c cs ih =>
    simp only [List.foldl_cons, List.mem_cons]
    rw [snapStep]
    split
    · rename_i hlt
      constructor
      · intro h
        exact absurd h (snapFold_some_stays hav point cs _ _)
      · intro h
        exact absurd (h c (Or.inl rfl)) (not_le.mpr hlt)
    · rename_i hge
      rw [ih m]
      constructor
      · intro h cand hc
        rcases hc with hc | hc
        · subst hc
          exact not_lt.mp hge
        · exact h cand hc
      · intro h cand hc
        exact h cand (Or.inr hc)

theorem snapFold_interpolation (hav : LatLng → LatLng → ℚ) (point : LatLng)
    (cands : List (String × String × LatLng × LatLng))
    (st : Option SnappedPoint × ℚ)
    (hst : ∀ sp, st.1 = some sp → 0 ≤ sp.interpolation ∧ sp.interpolation ≤ 1) :
    ∀ sp, (cands.foldl (snapStep hav point) st).1 = some sp →
      0 ≤ sp.interpolation ∧ sp.interpolation ≤ 1 := by
  induction cands generalizing st with
  | nil => exact hst
  | cons c cs ih =>
    simp only [List.foldl_cons]
    apply ih
    intro sp hsp
    rw [snapStep] at hsp
    split at hsp
    · simp only [Option.some.injEq] at hsp
      rw [← hsp]
      exact projection_t_bounds hav point c.2.2.1 c.2.2.2
    · exact hst sp hsp

/-- C6: snapToRoad returns none exactly when no mode-valid stored segment lies
strictly within maxRadius of the point (distance as the source computes it:
haversine from the point to its clamped planar projection onto the segment),
and any returned SnappedPoint has its interpolation inside [0, 1]. -/
theorem snap_none_iff_and_interpolation (hav : LatLng → LatLng → ℚ)
    (net : RoadNetwork) (point : LatLng) (mode : RoutingMode) (maxRadius : ℚ) :
    (snapToRoad hav net point mode maxRadius = none ↔
      ∀ cand ∈ snapCandidates net mode,
        maxRadius ≤ (pointToSegmentDistance hav point cand.2.2.1 cand.2.2.2).distance) ∧
    (∀ sp, snapToRoad hav net point mode maxRadius = some sp →
      0 ≤ sp.interpolation ∧ sp.interpolation ≤ 1) := by
  constructor
  · exact snapFold_none_iff hav point (snapCandidates net mode) maxRadius
  · intro sp hsp
    exact snapFold_interpolation hav point (snapCandidates net mode)
      (none, maxRadius) (by intro sp' h; cases h) sp hsp

/-- C9: a degenerate segment with both endpoints at identical coordinates is
resolved by the guarded branch (no division happens) to t = 0 with the
segment's start as closest point; in the other branch the divisor, a sum of
two squares of rationals not both zero, is nonzero. -/
theorem degenerate_segment_projection (hav : LatLng → LatLng → ℚ)
    (point a b : LatLng) :
    (a = b → pointToSegmentDistance hav point a b = ⟨hav point a, a, 0⟩) ∧
    (¬(b.lng - a.lng = 0 ∧ b.lat - a.lat = 0) →
      (b.lng - a.lng) * (b.lng - a.lng) + (b.lat - a.lat) * (b.lat - a.lat) ≠ 0) := by
  constructor
  · intro hab
    subst hab
    unfold pointToSegmentDistance
    rw [if_pos ⟨sub_self a.lng, sub_self a.lat⟩]
  · intro hne
    rcases not_and_or.mp hne with hx | hy
    · have h1 : 0 < (b.lng - a.lng) * (b.lng - a.lng) := mul_self_pos.mpr hx
      have h2 : 0 ≤ (b.lat - a.lat) * (b.lat - a.lat) := mul_self_nonneg _
      exact ne_of_gt (add_pos_of_pos_of_nonneg h1 h2)
    · have h1 : 0 ≤ (b.lng - a.lng) * (b.lng - a.lng) := mul_self_nonneg _
      have h2 : 0 < (b.lat - a.lat) * (b.lat - a.lat) := mul_self_pos.mpr hy
      exact ne_of_gt (add_pos_of_nonneg_of_pos h1 h2)

theorem proj_distance_eq (hav : LatLng → LatLng → ℚ) (point a b : LatLng) :
    (pointToSegmentDistance hav point a b).distance =
      hav point (pointToSegmentDistance hav point a b).closestPoint := by
  simp only [pointToSegmentDistance]
  split <;> rfl

theorem snapFold_selected (hav : LatLng → LatLng → ℚ) (point : LatLng) (M : ℚ)
    (allCands : List (String × String × LatLng × LatLng)) :
    ∀ (cands : List (String × String × LatLng × LatLng))
      (st : Option SnappedPoint × ℚ),
      (∀ c ∈ cands, c ∈ allCands) →
      st.2 ≤ M →
      (∀ sp, st.1 = some sp → ∃ cand ∈ allCands,
        sp = ⟨(pointToSegmentDistance hav point cand.2.2.1 cand.2.2.2).closestPoint,
              (cand.1, cand.2.1),
              (pointToSegmentDistance hav point cand.2.2.1 cand.2.2.2).t⟩ ∧
        (pointToSegmentDistance hav point cand.2.2.1 cand.2.2.2).distance < M) →
      ∀ sp, (cands.foldl (snapStep hav point) st).1 = some sp →
        ∃ cand ∈ allCands,
          sp = ⟨(pointToSegmentDistance hav point cand.2.2.1 cand.2.2.2).closestPoint,
                (cand.1, cand.2.1),
                (pointToSegmentDistance hav point cand.2.2.1 cand.2.2.2).t⟩ ∧
          (pointToSegmentDistance hav point cand.2.2.1 cand.2.2.2).distance < M := by
  intro cands
  induction cands with
  | nil =>
    intro st _ _ hst sp hsp
    exact hst sp hsp
  | cons c cs ih =>
    intro st hsub hM hst sp hsp
    simp only [List.foldl_cons] at hsp
    by_cases hlt : (pointToSegmentDistance hav point c.2.2.1 c.2.2.2).distance < st.2
    · rw [snapStep, if_pos hlt] at hsp
      refine ih _ (fun x hx => hsub x (List.mem_cons_of_mem _ hx))
        (le_of_lt (lt_of_lt_of_le hlt hM)) ?_ sp hsp
      intro sp' hsp'
      simp only [Option.some.injEq] at hsp'
      exact ⟨c, hsub c (List.mem_cons_self _ _), hsp'.symm,
        lt_of_lt_of_le hlt hM⟩
    · rw [snapStep, if_neg hlt] at hsp
      exact ih _ (fun x hx => hsub x (List.mem_cons_of_mem _ hx)) hM hst sp hsp

/-- C10: the maxRadius boundary is exclusive. The scan compares each candidate
with strict less-than against a running minimum initialized to maxRadius, so
when every mode-valid candidate is at distance at least maxRadius (including
exactly at it) the result is none; and a returned match is built from some
enumerated candidate whose own distance is strictly below maxRadius — hence
the match's distance to the query point (the source's haversine to its
closest point, i.e. to sp.location) is strictly below maxRadius, and a
segment at distance exactly maxRadius is never the selected one. -/
theorem snap_radius_exclusive (hav : LatLng → LatLng → ℚ) (net : RoadNetwork)
    (point : LatLng) (mode : RoutingMode) (maxRadius : ℚ) :
    ((∀ cand ∈ snapCandidates net mode,
        maxRadius ≤ (pointToSegmentDistance hav point cand.2.2.1 cand.2.2.2).distance) →
      snapToRoad hav net point mode maxRadius = none) ∧
    (∀ sp, snapToRoad hav net point mode maxRadius = some sp →
      hav point sp.location < maxRadius ∧
      ∃ cand ∈ snapCandidates net mode,
        sp = ⟨(pointToSegmentDistance hav point cand.2.2.1 cand.2.2.2).closestPoint,
              (cand.1, cand.2.1),
              (pointToSegmentDistance hav point cand.2.2.1 cand.2.2.2).t⟩ ∧
        (pointToSegmentDistance hav point cand.2.2.1 cand.2.2.2).distance < maxRadius) := by
  constructor
  · intro h
    exact (snapFold_none_iff hav point (snapCandidates net mode) maxRadius).mpr h
  · intro sp hsp
    have hsel := snapFold_selected hav point maxRadius (snapCandidates net mode)
      (snapCandidates net mode) (none, maxRadius) (fun x hx => hx) (le_refl maxRadius)
      (by intro sp' h; cases h) sp hsp
    obtain ⟨cand, hcand, hshape, hdist⟩ := hsel
    refine ⟨?_, cand, hcand, hshape, hdist⟩
    have hloc : sp.location =
        (pointToSegmentDistance hav point cand.2.2.1 cand.2.2.2).closestPoint := by
      rw [hshape]
    rw [proj_distance_eq hav point cand.2.2.1 cand.2.2.2] at hdist
    rw [hloc]
    exact hdist

/- Concrete inputs for the snapping witnesses: a single residential way whose
two nodes share the coordinates (0, 0). -/

def hav100 : LatLng → LatLng → ℚ := fun _ _ => 100
def nodeB0 : OSMNode := ⟨sB, 0, 0⟩
def wayRes : OSMWay := ⟨sW1, [sA, sB], [(highwayKey, residentialStr)]⟩
def parsedRes : ParsedOSM := ⟨[(sA, nodeA), (sB, nodeB0)], [wayRes]⟩
def netRes : RoadNetwork := buildFromOSM havZ parsedRes

theorem netRes_candidates : snapCandidates netRes RoutingMode.car =
    [(sA, sB, ⟨0, 0⟩, ⟨0, 0⟩), (sB, sA, ⟨0, 0⟩, ⟨0, 0⟩)] := rfl

/-- C6 (witness): with the distance function constantly zero, the scan
returns a snapped point and its interpolation lies in [0, 1]. -/
theorem snap_none_iff_and_interpolation_witness :
    snapToRoad havZ netRes ⟨0, 0⟩ RoutingMode.car 100 =
      some ⟨⟨0, 0⟩, (sA, sB), 0⟩ ∧
    (0 : ℚ) ≤ (⟨⟨0, 0⟩, (sA, sB), 0⟩ : SnappedPoint).interpolation ∧
    (⟨⟨0, 0⟩, (sA, sB), 0⟩ : SnappedPoint).interpolation ≤ 1 := by
  have heval : snapToRoad havZ netRes ⟨0, 0⟩ RoutingMode.car 100 =
      some ⟨⟨0, 0⟩, (sA, sB), 0⟩ := by
    rw [snapToRoad, netRes_candidates]
    norm_num [snapStep, pointToSegmentDistance, havZ]
  exact ⟨heval,
    (snap_none_iff_and_interpolation havZ netRes ⟨0, 0⟩ RoutingMode.car 100).2 _ heval⟩

/-- C10 (witness): with every candidate at distance exactly maxRadius = 100,
the boundary is excluded and the scan returns none; and in a successful run
(constant distance 0) the returned match's own distance to the query point is
strictly below maxRadius. -/
theorem snap_radius_exclusive_witness :
    snapToRoad hav100 netRes ⟨0, 0⟩ RoutingMode.car 100 = none ∧
    havZ ⟨0, 0⟩ (⟨⟨0, 0⟩, (sA, sB), 0⟩ : SnappedPoint).location < 100 := by
  constructor
  · apply (snap_radius_exclusive hav100 netRes ⟨0, 0⟩ RoutingMode.car 100).1
    rw [netRes_candidates]
    intro cand hc
    rcases List.mem_cons.mp hc with h | h
    · subst h
      norm_num [pointToSegmentDistance, hav100]
    · rcases List.mem_singleton.mp h with rfl
      norm_num [pointToSegmentDistance, hav100]
  · have heval : snapToRoad havZ netRes ⟨0, 0⟩ RoutingMode.car 100 =
        some ⟨⟨0, 0⟩, (sA, sB), 0⟩ := by
      rw [snapToRoad, netRes_candidates]
      norm_num [snapStep, pointToSegmentDistance, havZ]
    exact ((snap_radius_exclusive havZ netRes ⟨0, 0⟩ RoutingMode.car 100).2 _ heval).1

/-- C9 (witness): the degenerate branch at coincident endpoints and the
nonzero divisor at distinct endpoints, at concrete coordinates. -/
theorem degenerate_segment_projection_witness :
    pointToSegmentDistance havZ ⟨5, 5⟩ ⟨1, 2⟩ ⟨1, 2⟩ =
      ⟨0, ⟨1, 2⟩, 0⟩ ∧
    ((3 : ℚ) - 2) * ((3 : ℚ) - 2) + ((0 : ℚ) - 0) * ((0 : ℚ) - 0) ≠ 0 := by
  constructor
  · have h := (degenerate_segment_projection havZ ⟨5, 5⟩ ⟨1, 2⟩ ⟨1, 2⟩).1 rfl
    rw [h]
    rfl
  · exact (degenerate_segment_projection havZ ⟨5, 5⟩ ⟨0, 2⟩ ⟨0, 3⟩).2 (by norm_num)

/-- Default edge used only to state list indexing in witnesses. -/
def edgeDefault : Edge := ⟨sA, 0, sA, false, []⟩

/-- C2 (amended, witness): the first edge the bridleway way contributes has an
empty validModes list. -/
theorem unrecognized_way_edges_unroutable_witness :
    ((pairEdges havZ parsedBri.nodes wayBri sA sB).getD 0 (sA, edgeDefault)).2.validModes
      = [] := by
  apply (unrecognized_way_edges_unroutable havZ parsedBri.nodes wayBri (by decide)).1 sA sB
  have hlen : 0 < (pairEdges havZ parsedBri.nodes wayBri sA sB).length := by decide
  rw [List.getD_eq_getElem _ _ hlen]
  exact List.getElem_mem hlen

/- The virtual node identity of AStarRouter (claims C1 and C7). -/

/-- Interpolation value 0.1234 as an explicitly reduced rational. -/
def qTenthA : ℚ := ⟨617, 5000, by decide, by decide⟩

/-- Interpolation value 0.12341 as an explicitly reduced rational. -/
def qTenthB : ℚ := ⟨12341, 100000, by decide, by decide⟩

/-- Origin snapped point of the C1 counterexample. -/
def spColA : SnappedPoint := ⟨⟨0, 0⟩, (sA, sB), qTenthA⟩

/-- Destination snapped point of the C1 counterexample: a genuinely different
snapped point (interpolation 0.12341 instead of 0.1234) on the same segment. -/
def spColB : SnappedPoint := ⟨⟨0, 0⟩, (sA, sB), qTenthB⟩

/-- C1 (counterexample): two distinct SnappedPoints, usable as origin and
destination of one search, receive the same derived virtual node identifier,
because the identifier truncates the interpolation to four decimals; equality
is by the formatted string, not by instance. -/
theorem virtual_id_collision :
    spColA ≠ spColB ∧ getVirtualNodeId spColA = getVirtualNodeId spColB := by
  constructor
  · decide
  · rfl

/-- C1 (amended): the virtual node identifier is the underscore-joined string
of the two endpoint ids and the 4-decimal rendering of the interpolation, so
any two snapped points agreeing on endpoints and on that rendering share one
identifier, regardless of instance identity. -/
theorem virtual_id_determined_by_rounding (p q : SnappedPoint)
    (hids : p.nodeIds = q.nodeIds)
    (hrnd : toFixed4 p.interpolation = toFixed4 q.interpolation) :
    getVirtualNodeId p = getVirtualNodeId q := by
  unfold getVirtualNodeId
  rw [hids, hrnd]

/-- C1 (amended, witness): the rounding congruence applied to the two
colliding snapped points. -/
theorem virtual_id_determined_by_rounding_witness :
    getVirtualNodeId spColA = getVirtualNodeId spColB :=
  virtual_id_determined_by_rounding spColA spColB rfl (by decide)

/-- C7: the neighbor enumeration from the virtual origin id yields exactly the
segment's two endpoints, the first at interpolation times the full edge cost,
the second at (1 - interpolation) times it, where the full edge cost is the
first matching mode-valid edge between the endpoints, tried in both
directions, and Infinity when neither direction has one. -/
theorem virtual_origin_neighbors (net : RoadNetwork)
    (origin destination : SnappedPoint) (mode : RoutingMode) :
    getNeighborsForNode net origin destination mode (getVirtualNodeId origin) =
      [(origin.nodeIds.1, jsMul origin.interpolation
          (getEdgeCostBetweenNodes net mode origin.nodeIds.1 origin.nodeIds.2)),
       (origin.nodeIds.2, jsMul (1 - origin.interpolation)
          (getEdgeCostBetweenNodes net mode origin.nodeIds.1 origin.nodeIds.2))] ∧
    (∀ fromId toId,
      ((net.getNeighbors fromId mode).find?
          (fun e => decide (e.targetNodeId = toId)) = none →
        (net.getNeighbors toId mode).find?
          (fun e => decide (e.targetNodeId = fromId)) = none →
        getEdgeCostBetweenNodes net mode fromId toId = ⊤) ∧
      (∀ e, (net.getNeighbors fromId mode).find?
          (fun e' => decide (e'.targetNodeId = toId)) = some e →
        getEdgeCostBetweenNodes net mode fromId toId = (e.cost : WithTop ℚ)) ∧
      (∀ e, (net.getNeighbors fromId mode).find?
          (fun e' => decide (e'.targetNodeId = toId)) = none →
        (net.getNeighbors toId mode).find?
          (fun e' => decide (e'.targetNodeId = fromId)) = some e →
        getEdgeCostBetweenNodes net mode fromId toId = (e.cost : WithTop ℚ))) := by
  constructor
  · rw [getNeighborsForNode, if_pos rfl]
  · intro fromId toId
    refine ⟨?_, ?_, ?_⟩
    · intro h1 h2
      rw [getEdgeCostBetweenNodes, h1, h2]
    · intro e h1
      rw [getEdgeCostBetweenNodes, h1]
    · intro e h1 h2
      rw [getEdgeCostBetweenNodes, h1, h2]

/-- C7 (witness): on the empty network both direction lookups fail, so the
full edge cost from the virtual origin is Infinity, and the enumeration is
exactly the two endpoints at Infinity cost. -/
theorem virtual_origin_neighbors_witness :
    getNeighborsForNode (buildFromOSM havZ ⟨[], []⟩) spColA spColB RoutingMode.car
        (getVirtualNodeId spColA) =
      [(sA, ⊤), (sB, ⊤)] ∧
    getEdgeCostBetweenNodes (buildFromOSM havZ ⟨[], []⟩) RoutingMode.car sA sB = ⊤ := by
  have h := virtual_origin_neighbors (buildFromOSM havZ ⟨[], []⟩) spColA spColB
    RoutingMode.car
  have htop : getEdgeCostBetweenNodes (buildFromOSM havZ ⟨[], []⟩) RoutingMode.car sA sB
      = ⊤ := (h.2 sA sB).1 rfl rfl
  constructor
  · rw [h.1]
    rfl
  · exact htop

/- Structural lemmas about the binary heap: the bubble passes permute slots in
place, so they preserve length and introduce no new items. -/

theorem mem_of_mem_set {l : List PQItem} {n : Nat} {a x : PQItem}
    (h : x ∈ l.set n a) : x ∈ l ∨ x = a := by
  induction l generalizing n with
  | nil => simp at h
  | cons b bs ih =>
    cases n with
    | zero =>
      rcases List.mem_cons.mp h with h | h
      · exact Or.inr h
      · exact Or.inl (List.mem_cons_of_mem b h)
    | succ n =>
      rcases List.mem_cons.mp h with h | h
      · exact Or.inl (h ▸ List.mem_cons_self b bs)
      · rcases ih h with h | h
        · exact Or.inl (List.mem_cons_of_mem b h)
        · exact Or.inr h

theorem getD_mem_of_lt {l : List PQItem} {n : Nat} (d : PQItem) (h : n < l.length) :
    l.getD n d ∈ l := by
  rw [List.getD_eq_getElem _ _ h]
  exact List.getElem_mem h

theorem listSwap_length (l : List PQItem) (i j : Nat) :
    (listSwap l i j).length = l.length := by
  unfold listSwap
  split <;> simp

theorem listSwap_subset {l : List PQItem} {i j : Nat} {x : PQItem}
    (h : x ∈ listSwap l i j) : x ∈ l := by
  unfold listSwap at h
  split at h
  · rename_i hij
    rcases mem_of_mem_set h with h | h
    · rcases mem_of_mem_set h with h | h
      · exact h
      · exact h ▸ getD_mem_of_lt _ hij.2
    · exact h ▸ getD_mem_of_lt _ hij.1
  · exact h

theorem bubbleUpAux_length (fuel : Nat) (l : List PQItem) (i : Nat) :
    (bubbleUpAux fuel l i).length = l.length := by
  induction fuel generalizing l i with
  | zero => rfl
  | succ fuel ih =>
    simp only [bubbleUpAux]
    repeat' split
    all_goals first
      | rfl
      | rw [ih, listSwap_length]

theorem bubbleUpAux_subset (fuel : Nat) (l : List PQItem) (i : Nat) {x : PQItem}
    (h : x ∈ bubbleUpAux fuel l i) : x ∈ l := by
  induction fuel generalizing l i with
  | zero => exact h
  | succ fuel ih =>
    simp only [bubbleUpAux] at h
    repeat' split at h
    all_goals first
      | exact h
      | exact listSwap_subset (ih _ _ h)

theorem bubbleDownAux_length (fuel : Nat) (l : List PQItem) (i : Nat) :
    (bubbleDownAux fuel l i).length = l.length := by
  induction fuel generalizing l i with
  | zero => rfl
  | succ fuel ih =>
    simp only [bubbleDownAux]
    repeat' split
    all_goals first
      | rfl
      | rw [ih, listSwap_length]

theorem bubbleDownAux_subset (fuel : Nat) (l : List PQItem) (i : Nat) {x : PQItem}
    (h : x ∈ bubbleDownAux fuel l i) : x ∈ l := by
  induction fuel generalizing l i with
  | zero => exact h
  | succ fuel ih =>
    simp only [bubbleDownAux] at h
    repeat' split at h
    all_goals first
      | exact h
      | exact listSwap_subset (ih _ _ h)

theorem pqPush_length (l : List PQItem) (s : String) (p : WithTop ℚ) :
    (pqPush l s p).length = l.length + 1 := by
  unfold pqPush
  rw [bubbleUpAux_length]
  simp

theorem pqPush_subset {l : List PQItem} {s : String} {p : WithTop ℚ} {x : PQItem}
    (h : x ∈ pqPush l s p) : x ∈ l ∨ x = ⟨s, p⟩ := by
  unfold pqPush at h
  have := bubbleUpAux_subset _ _ _ h
  rcases List.mem_append.mp this with h1 | h1
  · exact Or.inl h1
  · exact Or.inr (List.mem_singleton.mp h1)

theorem getLastD_mem (a : PQItem) (as : List PQItem) (d : PQItem) :
    (a :: as).getLastD d ∈ a :: as := by
  rw [List.getLastD_eq_getLast?, List.getLast?_eq_getLast (a :: as) (by simp)]
  simp only [Option.getD_some]
  exact List.getLast_mem _

theorem pqPop_length {l : List PQItem} {s : String} {rest : List PQItem}
    (h : pqPop l = some (s, rest)) : rest.length + 1 = l.length := by
  match l with
  | [] => cases h
  | [x] =>
    simp only [pqPop, Option.some.injEq, Prod.mk.injEq] at h
    rw [← h.2]
    rfl
  | x :: y :: tl =>
    simp only [pqPop, Option.some.injEq, Prod.mk.injEq] at h
    rw [← h.2, bubbleDownAux_length, List.length_set, List.length_dropLast]
    simp

theorem pqPop_mem {l : List PQItem} {s : String} {rest : List PQItem}
    (h : pqPop l = some (s, rest)) : ∃ x ∈ l, x.item = s := by
  match l with
  | [] => cases h
  | [x] =>
    simp only [pqPop, Option.some.injEq, Prod.mk.injEq] at h
    exact ⟨x, List.mem_singleton.mpr rfl, h.1⟩
  | x :: y :: tl =>
    simp only [pqPop, Option.some.injEq, Prod.mk.injEq] at h
    exact ⟨x, List.mem_cons_self _ _, h.1⟩

theorem pqPop_subset {l : List PQItem} {s : String} {rest : List PQItem}
    (h : pqPop l = some (s, rest)) : ∀ x ∈ rest, x ∈ l := by
  match l with
  | [] => cases h
  | [x] =>
    simp only [pqPop, Option.some.injEq, Prod.mk.injEq] at h
    intro x hx
    rw [← h.2] at hx
    cases hx
  | x :: y :: tl =>
    simp only [pqPop, Option.some.injEq, Prod.mk.injEq] at h
    intro z hz
    rw [← h.2] at hz
    have hz2 := bubbleDownAux_subset _ _ _ hz
    rcases mem_of_mem_set hz2 with h1 | h1
    · exact List.dropLast_subset _ h1
    · exact h1 ▸ getLastD_mem x (y :: tl) pqDefault

/- Association-list lemmas for the score maps. -/

theorem alookup_aset_self {α : Type} (m : List (String × α)) (k : String) (v : α) :
    alookup k (aset k v m) = some v := by
  induction m with
  | nil => simp [aset, alookup]
  | cons p rest ih =>
    obtain ⟨k', v'⟩ := p
    by_cases h : k' = k
    · subst h
      simp [aset, alookup]
    · simp only [aset, if_neg h, alookup]
      exact ih

theorem alookup_aset_ne {α : Type} (m : List (String × α)) (k k' : String) (v : α)
    (h : k' ≠ k) : alookup k' (aset k v m) = alookup k' m := by
  induction m with
  | nil =>
    simp only [aset, alookup]
    rw [if_neg (fun hk => h hk.symm)]
  | cons p rest ih =>
    obtain ⟨k0, v0⟩ := p
    by_cases h0 : k0 = k
    · subst h0
      simp only [aset, if_pos rfl, alookup]
      rw [if_neg (fun hk => h hk.symm), if_neg (fun hk => h hk.symm)]
    · simp only [aset, if_neg h0, alookup]
      by_cases h1 : k0 = k'
      · rw [if_pos h1, if_pos h1]
      · rw [if_neg h1, if_neg h1]
        exact ih

theorem alookup_aset_isSome {α : Type} (m : List (String × α)) (k k' : String) (v : α)
    (h : (alookup k' m).isSome) : (alookup k' (aset k v m)).isSome := by
  by_cases hk : k' = k
  · subst hk
    rw [alookup_aset_self]
    rfl
  · rwa [alookup_aset_ne m k k' v hk]

/- Lemmas about one relaxation step and about expandState. -/

theorem relax_closedSet (c : Ctx) (current : String) (st : AState)
    (nc : String × WithTop ℚ) : (relax c current st nc).closedSet = st.closedSet := by
  simp only [relax]
  repeat' split
  all_goals rfl

theorem relax_openSet_length (c : Ctx) (current : String) (st : AState)
    (nc : String × WithTop ℚ) :
    (relax c current st nc).openSet.length ≤ st.openSet.length + 1 := by
  simp only [relax]
  repeat' split
  all_goals simp [pqPush_length]

theorem relax_openSet_mem (c : Ctx) (current : String) (st : AState)
    (nc : String × WithTop ℚ) {x : PQItem}
    (h : x ∈ (relax c current st nc).openSet) :
    x ∈ st.openSet ∨ x.item = nc.1 := by
  simp only [relax] at h
  repeat' split at h
  all_goals first
    | exact Or.inl h
    | rcases pqPush_subset h with h1 | h1
      · exact Or.inl h1
      · exact Or.inr (by rw [h1])

theorem relax_gScore_isSome (c : Ctx) (current : String) (st : AState)
    (nc : String × WithTop ℚ)
    (hst : ∀ x ∈ st.openSet, (alookup x.item st.gScore).isSome) :
    ∀ x ∈ (relax c current st nc).openSet,
      (alookup x.item (relax c current st nc).gScore).isSome := by
  intro x hx
  simp only [relax] at hx ⊢
  by_cases h1 : nc.1 ∈ st.closedSet
  · rw [if_pos h1] at hx ⊢
    exact hst x hx
  · rw [if_neg h1] at hx ⊢
    by_cases hb : (match alookup nc.1 st.gScore with
        | none => true
        | some g => decide (jsOrInf (alookup current st.gScore) + nc.2 < g)) = true
    · rw [if_pos hb] at hx ⊢
      rcases pqPush_subset hx with h2 | h2
      · exact alookup_aset_isSome _ _ _ _ (hst x h2)
      · rw [h2, alookup_aset_self]
        rfl
    · rw [if_neg hb] at hx ⊢
      exact hst x hx

theorem foldRelax_closedSet (c : Ctx) (current : String)
    (nbrs : List (String × WithTop ℚ)) (st : AState) :
    (nbrs.foldl (relax c current) st).closedSet = st.closedSet := by
  induction nbrs generalizing st with
  | nil => rfl
  | cons nc ncs ih =>
    simp only [List.foldl_cons]
    rw [ih, relax_closedSet]

theorem foldRelax_openSet_length (c : Ctx) (current : String)
    (nbrs : List (String × WithTop ℚ)) (st : AState) :
    (nbrs.foldl (relax c current) st).openSet.length ≤
      st.openSet.length + nbrs.length := by
  induction nbrs generalizing st with
  | nil => simp
  | cons nc ncs ih =>
    simp only [List.foldl_cons, List.length_cons]
    calc (ncs.foldl (relax c current) (relax c current st nc)).openSet.length
        ≤ (relax c current st nc).openSet.length + ncs.length := ih _
      _ ≤ st.openSet.length + 1 + ncs.length :=
          Nat.add_le_add_right (relax_openSet_length c current st nc) _
      _ = st.openSet.length + (ncs.length + 1) := by omega

theorem foldRelax_openSet_mem (c : Ctx) (current : String)
    (nbrs : List (String × WithTop ℚ)) (st : AState) {x : PQItem}
    (h : x ∈ (nbrs.foldl (relax c current) st).openSet) :
    x ∈ st.openSet ∨ ∃ nc ∈ nbrs, x.item = nc.1 := by
  induction nbrs generalizing st with
  | nil => exact Or.inl h
  | cons nc ncs ih =>
    simp only [List.foldl_cons] at h
    rcases ih _ h with h1 | h1
    · rcases relax_openSet_mem c current st nc h1 with h2 | h2
      · exact Or.inl h2
      · exact Or.inr ⟨nc, List.mem_cons_self _ _, h2⟩
    · obtain ⟨nc', hnc', he⟩ := h1
      exact Or.inr ⟨nc', List.mem_cons_of_mem _ hnc', he⟩

theorem foldRelax_gScore_isSome (c : Ctx) (current : String)
    (nbrs : List (String × WithTop ℚ)) (st : AState)
    (hst : ∀ x ∈ st.openSet, (alookup x.item st.gScore).isSome) :
    ∀ x ∈ (nbrs.foldl (relax c current) st).openSet,
      (alookup x.item (nbrs.foldl (relax c current) st).gScore).isSome := by
  induction nbrs generalizing st with
  | nil => exact hst
  | cons nc ncs ih =>
    simp only [List.foldl_cons]
    exact ih _ (relax_gScore_isSome c current st nc hst)

/- Neighbor enumerations stay inside the finite id universe and are bounded. -/

theorem alookupD_length_le (adj : List (String × List Edge)) (k : String) :
    (alookupD k adj).length ≤ (adj.map (fun p => p.2.length)).sum := by
  induction adj with
  | nil => simp [alookupD, alookup]
  | cons p rest ih =>
    obtain ⟨k', es⟩ := p
    simp only [alookupD, alookup, List.map_cons, List.sum_cons]
    by_cases h : k' = k
    · rw [if_pos h]
      exact Nat.le_add_right _ _
    · rw [if_neg h]
      exact le_trans ih (Nat.le_add_left _ _)

theorem getNeighbors_length_le (net : RoadNetwork) (nodeId : String)
    (mode : RoutingMode) :
    (net.getNeighbors nodeId mode).length ≤
      (net.adjacencyList.map (fun p => p.2.length)).sum :=
  le_trans (List.length_filter_le _ _) (alookupD_length_le net.adjacencyList nodeId)

theorem nbrs_length_le (c : Ctx) (nodeId : String) :
    (getNeighborsForNode c.net c.origin c.destination c.mode nodeId).length ≤
      maxNbrs c := by
  unfold getNeighborsForNode maxNbrs
  split
  · simp
  · split
    · simp
    · rw [List.length_map]
      have := getNeighbors_length_le c.net nodeId c.mode
      omega

theorem mem_alookupD_exists (adj : List (String × List Edge)) (k : String) (e : Edge)
    (h : e ∈ alookupD k adj) : ∃ p ∈ adj, e ∈ p.2 := by
  induction adj with
  | nil => simp [alookupD, alookup] at h
  | cons p rest ih =>
    obtain ⟨k', es⟩ := p
    simp only [alookupD, alookup] at h
    by_cases hk : k' = k
    · rw [if_pos hk] at h
      exact ⟨(k', es), List.mem_cons_self _ _, by simpa using h⟩
    · rw [if_neg hk] at h
      obtain ⟨q, hq, he⟩ := ih h
      exact ⟨q, List.mem_cons_of_mem _ hq, he⟩

theorem edge_target_mem_universe (c : Ctx) (nodeId : String) (edge : Edge)
    (h : edge ∈ c.net.getNeighbors nodeId c.mode) :
    edge.targetNodeId ∈ idUniverse c := by
  have h1 : edge ∈ alookupD nodeId c.net.adjacencyList :=
    List.mem_of_mem_filter h
  obtain ⟨p, hp, he⟩ := mem_alookupD_exists _ _ _ h1
  unfold idUniverse
  refine List.mem_cons_of_mem _ (List.mem_cons_of_mem _ (List.mem_cons_of_mem _
    (List.mem_cons_of_mem _ ?_)))
  rw [List.mem_flatten]
  exact ⟨p.2.map Edge.targetNodeId, List.mem_map.mpr ⟨p, hp, rfl⟩,
    List.mem_map.mpr ⟨edge, he, rfl⟩⟩

theorem nbr_mem_universe (c : Ctx) (nodeId : String) (nc : String × WithTop ℚ)
    (h : nc ∈ getNeighborsForNode c.net c.origin c.destination c.mode nodeId) :
    nc.1 ∈ idUniverse c := by
  unfold getNeighborsForNode at h
  split at h
  · rcases List.mem_cons.mp h with h1 | h1
    · rw [h1]
      exact List.mem_cons_of_mem _ (List.mem_cons_of_mem _ (List.mem_cons_self _ _))
    · rcases List.mem_singleton.mp h1 with rfl
      exact List.mem_cons_of_mem _ (List.mem_cons_of_mem _ (List.mem_cons_of_mem _
        (List.mem_cons_self _ _)))
  · split at h
    · cases h
    · obtain ⟨edge, hedge, heq⟩ := List.mem_map.mp h
      rw [← heq]
      split
      · exact List.mem_cons_of_mem _ (List.mem_cons_self _ _)
      · exact edge_target_mem_universe c nodeId edge hedge

theorem start_mem_universe (c : Ctx) : c.startId ∈ idUniverse c :=
  List.mem_cons_self _ _

theorem expandState_closedSet (c : Ctx) (current : String) (rest : List PQItem)
    (st : AState) :
    (expandState c current rest st).closedSet = st.closedSet ++ [current] := by
  unfold expandState
  rw [foldRelax_closedSet]

/- Lemmas about the main search loop, all by induction on the step budget. -/

theorem loop_shape (c : Ctx) (fuel : Nat) :
    ∀ st steps, loop c fuel st = some steps →
      ∃ es tc p, steps = es ++ [RouteStep.complete p tc] ∧
        ∀ s ∈ es, s.isExplore = true := by
  induction fuel with
  | zero =>
    intro st steps h
    simp [loop] at h
  | succ fuel ih =>
    intro st steps h
    rw [loop] at h
    split at h
    · simp only [Option.some.injEq] at h
      exact ⟨[], ⊤, [], h.symm, by simp⟩
    · rename_i current rest hpop
      by_cases hc : current ∈ st.closedSet
      · rw [if_pos hc] at h
        exact ih _ _ h
      · rw [if_neg hc] at h
        by_cases hg : current = c.goalId
        · rw [if_pos hg] at h
          cases halk : alookup current st.gScore with
          | none =>
            rw [halk] at h
            cases h
          | some g =>
            rw [halk] at h
            simp only [Option.some.injEq] at h
            refine ⟨[RouteStep.explore current ((some g).getD 0)
              ((alookup current st.fScore).getD 0)], g,
              reconstructPath st.cameFrom (st.cameFrom.length + 1) current, h.symm, ?_⟩
            intro s hs
            rcases List.mem_singleton.mp hs with rfl
            rfl
        · rw [if_neg hg] at h
          cases hrec : loop c fuel (expandState c current rest st) with
          | none =>
            rw [hrec] at h
            cases h
          | some steps2 =>
            rw [hrec] at h
            simp only [Option.some.injEq] at h
            obtain ⟨es, tc, p, hshape, hex⟩ := ih _ _ hrec
            refine ⟨RouteStep.explore current ((alookup current st.gScore).getD 0)
              ((alookup current st.fScore).getD 0) :: es, tc, p, ?_, ?_⟩
            · rw [← h, hshape]
              rfl
            · intro s hs
              rcases List.mem_cons.mp hs with rfl | hs
              · rfl
              · exact hex s hs

theorem loop_closed_not_explored (c : Ctx) (fuel : Nat) :
    ∀ st steps x, loop c fuel st = some steps → x ∈ st.closedSet →
      x ∉ exploreIds steps := by
  induction fuel with
  | zero =>
    intro st steps x h
    simp [loop] at h
  | succ fuel ih =>
    intro st steps x h hx
    rw [loop] at h
    split at h
    · simp only [Option.some.injEq] at h
      rw [← h]
      simp [exploreIds]
    · rename_i current rest hpop
      by_cases hc : current ∈ st.closedSet
      · rw [if_pos hc] at h
        exact ih _ _ x h hx
      · rw [if_neg hc] at h
        by_cases hg : current = c.goalId
        · rw [if_pos hg] at h
          cases halk : alookup current st.gScore with
          | none =>
            rw [halk] at h
            cases h
          | some g =>
            rw [halk] at h
            simp only [Option.some.injEq] at h
            rw [← h]
            simp only [exploreIds, List.filterMap_cons, List.mem_cons]
            intro hmem
            simp at hmem
            exact hc (hmem ▸ hx)
        · rw [if_neg hg] at h
          cases hrec : loop c fuel (expandState c current rest st) with
          | none =>
            rw [hrec] at h
            cases h
          | some steps2 =>
            rw [hrec] at h
            simp only [Option.some.injEq] at h
            rw [← h]
            simp only [exploreIds, List.filterMap_cons, List.mem_cons]
            intro hmem
            rcases hmem with hmem | hmem
            · exact hc (hmem ▸ hx)
            · have hx2 : x ∈ (expandState c current rest st).closedSet := by
                rw [expandState_closedSet]
                exact List.mem_append_left _ hx
              exact ih _ _ x hrec hx2 hmem

theorem loop_explore_nodup (c : Ctx) (fuel : Nat) :
    ∀ st steps, loop c fuel st = some steps → (exploreIds steps).Nodup := by
  induction fuel with
  | zero =>
    intro st steps h
    simp [loop] at h
  | succ fuel ih =>
    intro st steps h
    rw [loop] at h
    split at h
    · simp only [Option.some.injEq] at h
      rw [← h]
      simp [exploreIds]
    · rename_i current rest hpop
      by_cases hc : current ∈ st.closedSet
      · rw [if_pos hc] at h
        exact ih _ _ h
      · rw [if_neg hc] at h
        by_cases hg : current = c.goalId
        · rw [if_pos hg] at h
          cases halk : alookup current st.gScore with
          | none =>
            rw [halk] at h
            cases h
          | some g =>
            rw [halk] at h
            simp only [Option.some.injEq] at h
            rw [← h]
            simp [exploreIds]
        · rw [if_neg hg] at h
          cases hrec : loop c fuel (expandState c current rest st) with
          | none =>
            rw [hrec] at h
            cases h
          | some steps2 =>
            rw [hrec] at h
            simp only [Option.some.injEq] at h
            rw [← h]
            simp only [exploreIds, List.filterMap_cons, List.nodup_cons]
            constructor
            · apply loop_closed_not_explored c fuel _ _ current hrec
              rw [expandState_closedSet]
              exact List.mem_append_right _ (List.mem_singleton.mpr rfl)
            · exact ih _ _ hrec

theorem loop_exhaust (c : Ctx) (fuel : Nat) :
    ∀ st steps, loop c fuel st = some steps → c.goalId ∉ exploreIds steps →
      steps.getLast? = some (RouteStep.complete [] ⊤) := by
  induction fuel with
  | zero =>
    intro st steps h
    simp [loop] at h
  | succ fuel ih =>
    intro st steps h hng
    rw [loop] at h
    split at h
    · simp only [Option.some.injEq] at h
      rw [← h]
      rfl
    · rename_i current rest hpop
      by_cases hc : current ∈ st.closedSet
      · rw [if_pos hc] at h
        exact ih _ _ h hng
      · rw [if_neg hc] at h
        by_cases hg : current = c.goalId
        · rw [if_pos hg] at h
          cases halk : alookup current st.gScore with
          | none =>
            rw [halk] at h
            cases h
          | some g =>
            rw [halk] at h
            simp only [Option.some.injEq] at h
            exfalso
            apply hng
            rw [← h]
            simp [exploreIds, hg]
        · rw [if_neg hg] at h
          cases hrec : loop c fuel (expandState c current rest st) with
          | none =>
            rw [hrec] at h
            cases h
          | some steps2 =>
            rw [hrec] at h
            simp only [Option.some.injEq] at h
            have hng2 : c.goalId ∉ exploreIds steps2 := by
              intro hmem
              apply hng
              rw [← h]
              simp only [exploreIds, List.filterMap_cons, List.mem_cons]
              exact Or.inr hmem
            have hlast := ih _ _ hrec hng2
            rw [← h]
            obtain ⟨es, tc, p, hshape, _⟩ := loop_shape c fuel _ _ hrec
            have hne : steps2 ≠ [] := by
              rw [hshape]
              simp
            obtain ⟨b, l2, rfl⟩ := List.exists_cons_of_ne_nil hne
            rw [List.getLast?_cons_cons]
            exact hlast

/-- Termination measure of the search loop: each iteration either pops a stale
entry (heap shrinks, closed set unchanged) or closes one more universe node
(at the price of at most maxNbrs fresh pushes), so this quantity strictly
decreases. -/
def measureA (c : Ctx) (st : AState) : Nat :=
  st.openSet.length +
    ((idUniverse c).toFinset \ st.closedSet.toFinset).card * (maxNbrs c + 1)

theorem loop_isSome (c : Ctx) (fuel : Nat) :
    ∀ st, (∀ x ∈ st.openSet, x.item ∈ idUniverse c) →
      (∀ x ∈ st.openSet, (alookup x.item st.gScore).isSome) →
      measureA c st < fuel →
      (loop c fuel st).isSome := by
  induction fuel with
  | zero =>
    intro st _ _ hm
    exact absurd hm (Nat.not_lt_zero _)
  | succ fuel ih =>
    intro st hu hg hm
    rw [loop]
    split
    · rfl
    · rename_i current rest hpop
      by_cases hc : current ∈ st.closedSet
      · rw [if_pos hc]
        apply ih
        · intro x hx
          exact hu x (pqPop_subset hpop x hx)
        · intro x hx
          exact hg x (pqPop_subset hpop x hx)
        · have hlen := pqPop_length hpop
          unfold measureA at hm ⊢
          simp only at hm ⊢
          generalize ((idUniverse c).toFinset \ st.closedSet.toFinset).card *
            (maxNbrs c + 1) = P at hm ⊢
          omega
      · rw [if_neg hc]
        by_cases hgl : current = c.goalId
        · rw [if_pos hgl]
          obtain ⟨x, hxmem, hxitem⟩ := pqPop_mem hpop
          have hsome := hg x hxmem
          rw [hxitem] at hsome
          cases halk : alookup current st.gScore with
          | none =>
            rw [halk] at hsome
            cases hsome
          | some g => rfl
        · rw [if_neg hgl]
          obtain ⟨x0, hx0mem, hx0item⟩ := pqPop_mem hpop
          have hcuru : current ∈ idUniverse c := hx0item ▸ hu x0 hx0mem
          have hinv1 : ∀ x ∈ (expandState c current rest st).openSet,
              x.item ∈ idUniverse c := by
            intro x hx
            unfold expandState at hx
            rcases foldRelax_openSet_mem c current _ _ hx with h1 | h1
            · exact hu x (pqPop_subset hpop x h1)
            · obtain ⟨nc, hnc, he⟩ := h1
              exact he ▸ nbr_mem_universe c current nc hnc
          have hinv2 : ∀ x ∈ (expandState c current rest st).openSet,
              (alookup x.item (expandState c current rest st).gScore).isSome := by
            unfold expandState
            apply foldRelax_gScore_isSome
            intro x hx
            exact hg x (pqPop_subset hpop x hx)
          have hmeas : measureA c (expandState c current rest st) < fuel := by
            have hlen2 : (expandState c current rest st).openSet.length ≤
                rest.length + (getNeighborsForNode c.net c.origin c.destination
                  c.mode current).length := by
              unfold expandState
              exact foldRelax_openSet_length c current _ _
            have hnl := nbrs_length_le c current
            have hlen := pqPop_length hpop
            have hclo := expandState_closedSet c current rest st
            have hmemsd : current ∈ (idUniverse c).toFinset \ st.closedSet.toFinset :=
              Finset.mem_sdiff.mpr ⟨List.mem_toFinset.mpr hcuru,
                fun hmem => hc (List.mem_toFinset.mp hmem)⟩
            have hins : (st.closedSet ++ [current]).toFinset =
                insert current st.closedSet.toFinset := by
              rw [List.toFinset_append]
              simp only [List.toFinset_cons, List.toFinset_nil,
                insert_emptyc_eq]
              rw [Finset.union_comm, ← Finset.insert_eq]
            have hcard : ((idUniverse c).toFinset \
                (st.closedSet ++ [current]).toFinset).card + 1 =
                ((idUniverse c).toFinset \ st.closedSet.toFinset).card := by
              rw [hins, Finset.sdiff_insert]
              exact Finset.card_erase_add_one hmemsd
            unfold measureA at hm ⊢
            rw [hclo]
            have hK : ((idUniverse c).toFinset \ st.closedSet.toFinset).card =
                ((idUniverse c).toFinset \
                  (st.closedSet ++ [current]).toFinset).card + 1 := hcard.symm
            rw [hK, Nat.succ_mul] at hm
            generalize ((idUniverse c).toFinset \
              (st.closedSet ++ [current]).toFinset).card * (maxNbrs c + 1) = P at hm ⊢
            omega
          have hrec := ih (expandState c current rest st) hinv1 hinv2 hmeas
          cases hl : loop c fuel (expandState c current rest st) with
          | none =>
            rw [hl] at hrec
            cases hrec
          | some steps => rfl

theorem initState_inv_universe (c : Ctx) :
    ∀ x ∈ (initState c).openSet, x.item ∈ idUniverse c := by
  intro x hx
  rcases pqPush_subset hx with h1 | h1
  · cases h1
  · rw [h1]
    exact start_mem_universe c

theorem initState_inv_gScore (c : Ctx) :
    ∀ x ∈ (initState c).openSet, (alookup x.item (initState c).gScore).isSome := by
  intro x hx
  rcases pqPush_subset hx with h1 | h1
  · cases h1
  · rw [h1]
    show (alookup c.startId (aset c.startId (0 : WithTop ℚ) [])).isSome
    rw [alookup_aset_self]
    rfl

theorem initState_measure (c : Ctx) : measureA c (initState c) < initialFuel c := by
  unfold measureA initialFuel initState
  simp only [pqPush_length, List.length_nil, List.toFinset_nil, Finset.sdiff_empty]
  omega

theorem loop_init_isSome (c : Ctx) :
    (loop c (initialFuel c) (initState c)).isSome :=
  loop_isSome c (initialFuel c) (initState c) (initState_inv_universe c)
    (initState_inv_gScore c) (initState_measure c)

/-- C3: findRoute never throws and always terminates: it is a total function
returning an actual step list (isSome; the modeled exception from
`gScore.get(current)!` and the modeled step budget are both proved
unreachable), and whenever the destination's virtual id is never popped for
exploration — in particular on a disconnected graph — the final emitted step
is the sentinel Complete with empty path and totalCost Infinity. -/
theorem findRoute_terminates_no_route (hav : LatLng → LatLng → ℚ)
    (net : RoadNetwork) (origin destination : SnappedPoint) (mode : RoutingMode) :
    (findRoute hav net origin destination mode).isSome = true ∧
    ∀ steps, findRoute hav net origin destination mode = some steps →
      steps ≠ [] ∧
      (getVirtualNodeId destination ∉ exploreIds steps →
        steps.getLast? = some (RouteStep.complete [] ⊤)) := by
  constructor
  · exact loop_init_isSome ⟨hav, net, origin, destination, mode⟩
  · intro steps h
    constructor
    · obtain ⟨es, tc, p, hshape, _⟩ :=
        loop_shape ⟨hav, net, origin, destination, mode⟩ _ _ _ h
      rw [hshape]
      simp
    · intro hng
      exact loop_exhaust ⟨hav, net, origin, destination, mode⟩ _ _ _ h hng

theorem isExplore_not_pathUpdate {s : RouteStep} (h : s.isExplore = true) :
    s.isPathUpdate = false := by
  cases s <;> first | rfl | cases h

theorem isExplore_not_complete {s : RouteStep} (h : s.isExplore = true) :
    s.isComplete = false := by
  cases s <;> first | rfl | cases h

/-- C4: every step sequence produced by findRoute consists of Explore steps
followed by exactly one final Complete step: no path-update variant is ever
emitted, and the single Complete terminates the sequence with nothing after
it. -/
theorem findRoute_step_variants (hav : LatLng → LatLng → ℚ) (net : RoadNetwork)
    (origin destination : SnappedPoint) (mode : RoutingMode) :
    ∀ steps, findRoute hav net origin destination mode = some steps →
      (∀ s ∈ steps, s.isPathUpdate = false) ∧
      ∃ es tc p, steps = es ++ [RouteStep.complete p tc] ∧
        (∀ s ∈ es, s.isExplore = true) ∧
        (steps.filter (fun s => s.isComplete)).length = 1 := by
  intro steps h
  obtain ⟨es, tc, p, hshape, hex⟩ :=
    loop_shape ⟨hav, net, origin, destination, mode⟩ _ _ _ h
  constructor
  · intro s hs
    rw [hshape] at hs
    rcases List.mem_append.mp hs with hs | hs
    · exact isExplore_not_pathUpdate (hex s hs)
    · rcases List.mem_singleton.mp hs with rfl
      rfl
  · refine ⟨es, tc, p, hshape, hex, ?_⟩
    rw [hshape, List.filter_append]
    have hnil : es.filter (fun s => s.isComplete) = [] := by
      rw [List.filter_eq_nil_iff]
      intro s hs
      rw [isExplore_not_complete (hex s hs)]
      simp
    rw [hnil]
    rfl

/-- C8: in every step sequence produced by findRoute, no node id is the
subject of more than two Explore steps and at most one node id could appear
twice; the code in fact achieves the stronger bound that every node id is
explored at most once, because a popped node is closed before any further pop
of it can be emitted. -/
theorem findRoute_explore_multiplicity (hav : LatLng → LatLng → ℚ)
    (net : RoadNetwork) (origin destination : SnappedPoint) (mode : RoutingMode) :
    ∀ steps, findRoute hav net origin destination mode = some steps →
      (∀ nodeId, (exploreIds steps).count nodeId ≤ 2) ∧
      (∀ id1 id2, 2 ≤ (exploreIds steps).count id1 →
        2 ≤ (exploreIds steps).count id2 → id1 = id2) := by
  intro steps h
  have hnd := loop_explore_nodup ⟨hav, net, origin, destination, mode⟩ _ _ _ h
  have hle : ∀ nodeId, (exploreIds steps).count nodeId ≤ 1 :=
    fun nodeId => List.nodup_iff_count_le_one.mp hnd nodeId
  constructor
  · intro nodeId
    exact le_trans (hle nodeId) (by omega)
  · intro id1 id2 h1 _
    have := hle id1
    omega

/- Concrete disconnected search for the findRoute witnesses: an empty road
network, so neither virtual endpoint connects to anything. -/

def sX : String := "x"
def sY : String := "y"
def sZ : String := "z"
def sV : String := "v"
def netEmpty : RoadNetwork := buildFromOSM havZ ⟨[], []⟩
def spOriginW : SnappedPoint := ⟨⟨0, 0⟩, (sX, sY), 0⟩
def spDestW : SnappedPoint := ⟨⟨0, 0⟩, (sZ, sV), 0⟩

/-- Step sequence actually produced on the empty network. -/
def stepsW : List RouteStep :=
  (findRoute havZ netEmpty spOriginW spDestW RoutingMode.car).getD []

/-- C3 (witness): on the empty network the search produces a concrete finite
sequence whose final step is Complete with empty path and cost Infinity. -/
theorem findRoute_terminates_no_route_witness :
    findRoute havZ netEmpty spOriginW spDestW RoutingMode.car = some stepsW ∧
    stepsW.getLast? = some (RouteStep.complete [] ⊤) := by
  have h := findRoute_terminates_no_route havZ netEmpty spOriginW spDestW
    RoutingMode.car
  have heq : findRoute havZ netEmpty spOriginW spDestW RoutingMode.car =
      some stepsW := rfl
  exact ⟨heq, (h.2 stepsW heq).2 (by decide)⟩

/-- C4 (witness): the concrete sequence has no path-update step and exactly
one Complete step. -/
theorem findRoute_step_variants_witness :
    stepsW.all (fun s => !s.isPathUpdate) = true ∧
    (stepsW.filter (fun s => s.isComplete)).length = 1 := by
  have h := findRoute_step_variants havZ netEmpty spOriginW spDestW
    RoutingMode.car stepsW rfl
  refine ⟨?_, ?_⟩
  · rw [List.all_eq_true]
    intro s hs
    rw [h.1 s hs]
    rfl
  · obtain ⟨_, _, _, _, _, hcount⟩ := h.2
    exact hcount

/-- C8 (witness): the multiplicity bound instantiated at the virtual origin id
of the concrete run. -/
theorem findRoute_explore_multiplicity_witness :
    (exploreIds stepsW).count (getVirtualNodeId spOriginW) ≤ 2 :=
  (findRoute_explore_multiplicity havZ netEmpty spOriginW spDestW
    RoutingMode.car stepsW rfl).1 (getVirtualNodeId spOriginW)

end RoutingCore
